import Mathlib

/-!
Shallow embedding of the `crumb` validation engine (`src/unnamed/part_004`):
JS runtime values, `ValidationError`, the schema class hierarchy as a closed
inductive `Sch`, its `parse` recursion and the `toJsonSchema` exporter,
together with theorems settling the specification claims.

Host primitives (`Number()`, `String.prototype.trim`, `RegExp.prototype.test`,
`new Date(string)`, JS number rendering) are modelled on the fragment the
claims exercise; each carries a comment stating the fragment.
-/

namespace Crumb

/-- A JS number: either NaN or a rational (JS doubles restricted to the exact
fragment; no claim depends on floating-point rounding). -/
inductive JNum where
  | nan
  | val (q : ℚ)
deriving DecidableEq

/-- JS runtime values, restricted to the shapes the validator inspects.
Objects are association lists in insertion order (well-formed JS objects have
unique keys); property lookup takes the first match. -/
inductive Value where
  | str (s : String)
  | num (n : JNum)
  | bool (b : Bool)
  | null
  | undefinedV
  | arr (xs : List Value)
  | obj (fields : List (String × Value))
  | date (t : Int)

/-- `ValidationIssue` from the source: a `{path, message}` pair. -/
structure ValidationIssue where
  path : String
  message : String
deriving DecidableEq

/-- `ValidationError` carries its issues plus the summary message the
constructor computes. -/
structure ValidationError where
  issues : List ValidationIssue
  message : String
deriving DecidableEq

/-- The `ValidationError` constructor: the summary message joins the
individual messages (source line 9). -/
def ValidationError.ofIssues (issues : List ValidationIssue) : ValidationError :=
  ⟨issues, "Validation failed: " ++ String.intercalate ", " (issues.map (fun i => i.message))⟩

/-- Anything a `parse` call can throw: the engine's own `ValidationError`, or
an arbitrary non-`ValidationError` exception (tagged by a `Nat`) originating
in a user-supplied transform function. Per the spec, transform bodies never
throw `ValidationError`s. -/
inductive Thrown where
  | verr (e : ValidationError)
  | other (tag : Nat)

/-- JS `RegExp`, modelled by its `source` text and its `test` behaviour
(`test` returns whether the regex matches anywhere in the string). -/
structure JsRegExp where
  source : String
  test : String → Bool

/-- JS number-to-string (`String(n)` / template interpolation) on the
fragment used: `NaN` renders as `"NaN"`, integers in decimal; non-integral
rationals use a simplified rendering (no claim exercises them). -/
def jsNumToString : JNum → String
  | .nan => "NaN"
  | .val q => if q.den = 1 then toString q.num else toString q

/-- JS `String(b)` for booleans. -/
def jsBoolToString (b : Bool) : String := cond b "true" "false"

/-- Strip leading and trailing whitespace from a character list. -/
def trimChars (cs : List Char) : List Char :=
  ((cs.dropWhile Char.isWhitespace).reverse.dropWhile Char.isWhitespace).reverse

/-- JS `String.prototype.trim` (whitespace fragment; claims use ASCII
spaces only). -/
def jsTrim (s : String) : String := String.mk (trimChars s.data)

/-- JS `String.prototype.toLowerCase` on the ASCII fragment. -/
def jsToLower (s : String) : String := String.mk (s.data.map Char.toLower)

def digitsToNat (cs : List Char) : Nat :=
  cs.foldl (fun a c => a * 10 + (c.toNat - 48)) 0

/-- ECMAScript `Number(string)` on already-trimmed input, modelled on the
decimal fragment `[+-]?digits[.digits]` (no exponents, hex or `Infinity`);
anything else is NaN. The claims evaluate it only on decimal strings. -/
def jsStringToNumber (s : String) : JNum :=
  let sign : Bool × List Char :=
    match s.data with
    | '-' :: r => (true, r)
    | '+' :: r => (false, r)
    | r => (false, r)
  let signed : Int → ℚ := fun n => ((if sign.1 then -n else n : Int) : ℚ)
  match sign.2.splitOn '.' with
  | [whole] =>
      if whole ≠ [] ∧ whole.all Char.isDigit then .val (signed (digitsToNat whole))
      else .nan
  | [whole, frac] =>
      if (whole ++ frac) ≠ [] ∧ whole.all Char.isDigit ∧ frac.all Char.isDigit then
        .val (signed (digitsToNat whole * 10 ^ frac.length + digitsToNat frac) /
          ((10 ^ frac.length : ℕ) : ℚ))
      else .nan
  | _ => .nan

/-- Abstract model of the host `new Date(string)` parser: digit strings give
a millisecond timestamp, everything else is an invalid date. No claim depends
on which strings are valid dates, only on the failure/success shape. -/
def jsDateParse (s : String) : Option Int :=
  if s ≠ "" ∧ s.data.all Char.isDigit then some (digitsToNat s.data : Int) else none

/-- Host `Date.prototype.toISOString`, abstractly rendered; claims only need
date-constraint messages to differ from the date type-failure messages. -/
def jsIsoString (t : Int) : String := toString t

/-- JS property read `obj[key]`: first matching key, else `undefined`. -/
def jsGet (fields : List (String × Value)) (key : String) : Value :=
  (List.lookup key fields).getD .undefinedV

/-- Child path for array index `i`: `path ? path + "[i]" : "[i]"`
(source line 315; `""` is the only falsy path string). -/
def extendIdx (p : String) (i : Nat) : String :=
  if p = "" then "[" ++ toString i ++ "]" else p ++ "[" ++ toString i ++ "]"

/-- Child path for key `k`: `path ? path + "." + k : k` (source line 374). -/
def extendKey (p : String) (k : String) : String :=
  if p = "" then k else p ++ "." ++ k

/-- Literal schema values: `string | number | boolean` (source line 427). -/
inductive Prim where
  | str (s : String)
  | num (n : JNum)
  | bool (b : Bool)

def Prim.toValue : Prim → Value
  | .str s => .str s
  | .num n => .num n
  | .bool b => .bool b

/-- JS strict equality `data === value` against a primitive literal
(`NaN === NaN` is false). -/
def jsStrictEq (v : Value) (l : Prim) : Bool :=
  match v, l with
  | .str s, .str t => s == t
  | .num (.val a), .num (.val b) => a == b
  | .bool a, .bool b => a == b
  | _, _ => false

/-- `JSON.stringify` on literal values (string escaping elided: the fragment
used by messages; `NaN` serialises as `null`). -/
def jsonStringifyPrim : Prim → String
  | .str s => "\"" ++ s ++ "\""
  | .num .nan => "null"
  | .num (.val q) => jsNumToString (.val q)
  | .bool b => jsBoolToString b

-- ── Schema checks ────────────────────────────────────────────────────

/-- `StringSchema`'s check list (length bounds on the integral fragment). -/
inductive StrCheck where
  | min (n : Nat)
  | max (n : Nat)
  | pattern (re : JsRegExp)

/-- `NumberSchema`'s check list. -/
inductive NumCheck where
  | min (q : ℚ)
  | max (q : ℚ)
  | integer

/-- `ArraySchema`'s check list. -/
inductive ArrCheck where
  | min (n : Nat)
  | max (n : Nat)

/-- `DateSchema`'s check list (boundary instants in ms). -/
inductive DateCheck where
  | min (t : Int)
  | max (t : Int)

/-- The closed set of schema variants of the source class hierarchy. Every
constructor's first field is the node's `_customMessage`. Transform functions
may throw arbitrary non-`ValidationError` exceptions (`Except Nat`). -/
inductive Sch where
  | str (msg : Option String) (checks : List StrCheck)
  | num (msg : Option String) (checks : List NumCheck)
  | bool (msg : Option String)
  | coercedStr (msg : Option String) (checks : List StrCheck)
  | coercedNum (msg : Option String) (checks : List NumCheck)
  | coercedBool (msg : Option String)
  | arr (msg : Option String) (checks : List ArrCheck) (item : Sch)
  | obj (msg : Option String) (shape : List (String × Sch))
  | record (msg : Option String) (valueSchema : Sch)
  | enum (msg : Option String) (values : List String)
  | literal (msg : Option String) (value : Prim)
  | union (msg : Option String) (schemas : List Sch)
  | date (msg : Option String) (checks : List DateCheck)
  | optional (msg : Option String) (inner : Sch)
  | nullable (msg : Option String) (inner : Sch)
  | transform (msg : Option String) (inner : Sch) (fn : Value → Except Nat Value)

/-- `Schema.fail`: throws a single-issue `ValidationError` whose message is
`_customMessage ?? defaultMessage` (source lines 43-45). -/
def typeFail (m : Option String) (p d : String) : Except Thrown Value :=
  .error (.verr (ValidationError.ofIssues [⟨p, m.getD d⟩]))

/-- The `StringSchema.parse` constraint loop (source lines 129-145):
first failing check throws immediately with its own fixed message. -/
def runStrChecks : List StrCheck → String → String → Except Thrown Value
  | [], s, _ => .ok (.str s)
  | .min n :: rest, s, p =>
      if s.length < n then
        .error (.verr (ValidationError.ofIssues
          [⟨p, "String must be at least " ++ toString n ++ " characters"⟩]))
      else runStrChecks rest s p
  | .max n :: rest, s, p =>
      if s.length > n then
        .error (.verr (ValidationError.ofIssues
          [⟨p, "String must be at most " ++ toString n ++ " characters"⟩]))
      else runStrChecks rest s p
  | .pattern re :: rest, s, p =>
      if !(re.test s) then
        .error (.verr (ValidationError.ofIssues
          [⟨p, "String must match pattern /" ++ re.source ++ "/"⟩]))
      else runStrChecks rest s p

/-- The `NumberSchema.parse` constraint loop (source lines 189-205). -/
def runNumChecks : List NumCheck → ℚ → String → Except Thrown Value
  | [], q, _ => .ok (.num (.val q))
  | .min n :: rest, q, p =>
      if q < n then
        .error (.verr (ValidationError.ofIssues
          [⟨p, "Number must be at least " ++ jsNumToString (.val n)⟩]))
      else runNumChecks rest q p
  | .max n :: rest, q, p =>
      if q > n then
        .error (.verr (ValidationError.ofIssues
          [⟨p, "Number must be at most " ++ jsNumToString (.val n)⟩]))
      else runNumChecks rest q p
  | .integer :: rest, q, p =>
      if ¬(q.den = 1) then
        .error (.verr (ValidationError.ofIssues [⟨p, "Number must be an integer"⟩]))
      else runNumChecks rest q p

/-- `NumberSchema.parse` after the `typeof` test: NaN fails the primary type
check, then constraints run (source lines 185-206). Shared with the coerced
variant's `super.parse(num, path)` call. -/
def numberCore (m : Option String) (checks : List NumCheck) (jn : JNum) (p : String) :
    Except Thrown Value :=
  match jn with
  | .nan => typeFail m p "Expected number"
  | .val q => runNumChecks checks q p

/-- The `ArraySchema.parse` length-check loop (source lines 297-308),
run before items are visited. -/
def runArrChecks : List ArrCheck → Nat → String → Except Thrown Unit
  | [], _, _ => .ok ()
  | .min n :: rest, len, p =>
      if len < n then
        .error (.verr (ValidationError.ofIssues
          [⟨p, "Array must have at least " ++ toString n ++ " items"⟩]))
      else runArrChecks rest len p
  | .max n :: rest, len, p =>
      if len > n then
        .error (.verr (ValidationError.ofIssues
          [⟨p, "Array must have at most " ++ toString n ++ " items"⟩]))
      else runArrChecks rest len p

/-- The `DateSchema.parse` range-check loop (source lines 523-534). -/
def runDateChecks : List DateCheck → Int → String → Except Thrown Value
  | [], t, _ => .ok (.date t)
  | .min b :: rest, t, p =>
      if t < b then
        .error (.verr (ValidationError.ofIssues
          [⟨p, "Date must be on or after " ++ jsIsoString b⟩]))
      else runDateChecks rest t p
  | .max b :: rest, t, p =>
      if t > b then
        .error (.verr (ValidationError.ofIssues
          [⟨p, "Date must be on or before " ++ jsIsoString b⟩]))
      else runDateChecks rest t p

mutual

/-- `Schema.parse` across all variants of the source hierarchy. -/
def parse : Sch → Value → String → Except Thrown Value
  | .str m checks, v, p =>
      match v with
      | .str s => runStrChecks checks s p
      | _ => typeFail m p "Expected string"
  | .num m checks, v, p =>
      match v with
      | .num jn => numberCore m checks jn p
      | _ => typeFail m p "Expected number"
  | .bool m, v, p =>
      match v with
      | .bool b => .ok (.bool b)
      | _ => typeFail m p "Expected boolean"
  | .coercedStr m checks, v, p =>
      match v with
      | .num jn => runStrChecks checks (jsNumToString jn) p
      | .bool b => runStrChecks checks (jsBoolToString b) p
      | .str s => runStrChecks checks s p
      | _ => typeFail m p "Expected string"
  | .coercedNum m checks, v, p =>
      match v with
      | .str s =>
          if jsTrim s = "" then typeFail m p "Expected number"
          else numberCore m checks (jsStringToNumber (jsTrim s)) p
      | .num jn => numberCore m checks jn p
      | _ => typeFail m p "Expected number"
  | .coercedBool m, v, p =>
      match v with
      | .str s =>
          if jsToLower s = "true" ∨ jsToLower s = "1" then .ok (.bool true)
          else if jsToLower s = "false" ∨ jsToLower s = "0" ∨ jsToLower s = "" then
            .ok (.bool false)
          else typeFail m p "Expected boolean"
      | .bool b => .ok (.bool b)
      | _ => typeFail m p "Expected boolean"
  | .arr m checks item, v, p =>
      match v with
      | .arr xs =>
          match runArrChecks checks xs.length p with
          | .error e => .error e
          | .ok () =>
              match parseItems item p 0 xs with
              | .error e => .error e
              | .ok (issues, result) =>
                  if issues.isEmpty then .ok (.arr result)
                  else .error (.verr (ValidationError.ofIssues issues))
      | _ => typeFail m p "Expected array"
  | .obj m shape, v, p =>
      match v with
      | .obj fields =>
          match parseFields p shape fields with
          | .error e => .error e
          | .ok (issues, result) =>
              if issues.isEmpty then .ok (.obj result)
              else .error (.verr (ValidationError.ofIssues issues))
      | _ => typeFail m p "Expected object"
  | .record m valueSchema, v, p =>
      match v with
      | .obj fields =>
          match parseRecordEntries valueSchema p fields with
          | .error e => .error e
          | .ok (issues, result) =>
              if issues.isEmpty then .ok (.obj result)
              else .error (.verr (ValidationError.ofIssues issues))
      | _ => typeFail m p "Expected object"
  | .enum m values, v, p =>
      match v with
      | .str s =>
          if values.contains s then .ok (.str s)
          else typeFail m p ("Expected one of: " ++ String.intercalate ", " values)
      | _ => typeFail m p ("Expected one of: " ++ String.intercalate ", " values)
  | .literal m value, v, p =>
      if jsStrictEq v value then .ok v
      else typeFail m p ("Expected literal " ++ jsonStringifyPrim value)
  | .union m schemas, v, p =>
      match parseUnion schemas v p with
      | some r => .ok r
      | none => typeFail m p "Value does not match any type in the union"
  | .date m checks, v, p =>
      match v with
      | .str s =>
          match jsDateParse s with
          | none => typeFail m p "Invalid date"
          | some t => runDateChecks checks t p
      | _ => typeFail m p "Expected date string"
  | .optional _ inner, v, p =>
      match v with
      | .undefinedV => .ok .undefinedV
      | _ => parse inner v p
  | .nullable _ inner, v, p =>
      match v with
      | .null => .ok .null
      | _ => parse inner v p
  | .transform _ inner fn, v, p =>
      match parse inner v p with
      | .ok x =>
          match fn x with
          | .ok y => .ok y
          | .error t => .error (.other t)
      | .error e => .error e
termination_by s _ _ => (sizeOf s, 0)

/-- The `ArraySchema.parse` item loop (source lines 310-323): every index is
visited in order, a child `ValidationError`'s issues are accumulated, any
other exception is re-thrown immediately, successes are collected in order. -/
def parseItems (item : Sch) (p : String) (i : Nat) :
    List Value → Except Thrown (List ValidationIssue × List Value)
  | [] => .ok ([], [])
  | x :: rest =>
      match parse item x (extendIdx p i) with
      | .ok v =>
          match parseItems item p (i + 1) rest with
          | .ok (issues, result) => .ok (issues, v :: result)
          | .error e => .error e
      | .error (.verr e) =>
          match parseItems item p (i + 1) rest with
          | .ok (issues, result) => .ok (e.issues ++ issues, result)
          | .error e' => .error e'
      | .error (.other t) => .error (.other t)
termination_by xs => (sizeOf item, sizeOf xs)

/-- The `ObjectSchema.parse` key loop (source lines 373-387): declared keys
in declaration order, `obj[key]` is `undefined` when absent, a defined parsed
value is stored, child `ValidationError`s accumulate, others re-throw. -/
def parseFields (p : String) :
    List (String × Sch) → List (String × Value) →
      Except Thrown (List ValidationIssue × List (String × Value))
  | [], _ => .ok ([], [])
  | (key, fieldSchema) :: rest, fields =>
      match parse fieldSchema (jsGet fields key) (extendKey p key) with
      | .ok v =>
          match parseFields p rest fields with
          | .ok (issues, result) =>
              .ok (issues, match v with | .undefinedV => result | _ => (key, v) :: result)
          | .error e => .error e
      | .error (.verr e) =>
          match parseFields p rest fields with
          | .ok (issues, result) => .ok (e.issues ++ issues, result)
          | .error e' => .error e'
      | .error (.other t) => .error (.other t)
termination_by shape _ => (sizeOf shape, 0)

/-- The `RecordSchema.parse` entry loop (source lines 480-487): every
observed key's value is validated; results are stored unconditionally. -/
def parseRecordEntries (valueSchema : Sch) (p : String) :
    List (String × Value) → Except Thrown (List ValidationIssue × List (String × Value))
  | [] => .ok ([], [])
  | (key, val) :: rest =>
      match parse valueSchema val (extendKey p key) with
      | .ok v =>
          match parseRecordEntries valueSchema p rest with
          | .ok (issues, result) => .ok (issues, (key, v) :: result)
          | .error e => .error e
      | .error (.verr e) =>
          match parseRecordEntries valueSchema p rest with
          | .ok (issues, result) => .ok (e.issues ++ issues, result)
          | .error e' => .error e'
      | .error (.other t) => .error (.other t)
termination_by entries => (sizeOf valueSchema, sizeOf entries)

/-- The `UnionSchema.parse` member loop (source lines 452-456): the bare
`catch {}` swallows every exception from a member, `ValidationError` or not;
the first successful member's result is returned. -/
def parseUnion (schemas : List Sch) (v : Value) (p : String) : Option Value :=
  match schemas with
  | [] => none
  | s :: rest =>
      match parse s v p with
      | .ok r => some r
      | .error _ => parseUnion rest v p
termination_by (sizeOf schemas, 0)

end

-- ── Document exporter ────────────────────────────────────────────────

/-- JSON documents produced by `toJsonSchema`; objects keep key order. -/
inductive Json where
  | str (s : String)
  | num (q : ℚ)
  | bool (b : Bool)
  | null
  | arr (xs : List Json)
  | obj (fields : List (String × Json))

/-- JS property assignment `o[k] = v`: overwriting keeps the key's original
position, a new key is appended. -/
def jsonSet (fields : List (String × Json)) (k : String) (v : Json) :
    List (String × Json) :=
  match fields with
  | [] => [(k, v)]
  | (k', v') :: rest => if k' = k then (k, v) :: rest else (k', v') :: jsonSet rest k v

/-- One step of `StringSchema.toJsonSchema`'s check loop (source 151-155). -/
def strCheckJson (fields : List (String × Json)) : StrCheck → List (String × Json)
  | .min n => jsonSet fields "minLength" (.num n)
  | .max n => jsonSet fields "maxLength" (.num n)
  | .pattern re => jsonSet fields "pattern" (.str re.source)

/-- One step of `NumberSchema.toJsonSchema`'s check loop (source 211-215). -/
def numCheckJson (fields : List (String × Json)) : NumCheck → List (String × Json)
  | .min q => jsonSet fields "minimum" (.num q)
  | .max q => jsonSet fields "maximum" (.num q)
  | .integer => jsonSet fields "type" (.str "integer")

/-- One step of `ArraySchema.toJsonSchema`'s check loop (source 331-334). -/
def arrCheckJson (fields : List (String × Json)) : ArrCheck → List (String × Json)
  | .min n => jsonSet fields "minItems" (.num n)
  | .max n => jsonSet fields "maxItems" (.num n)

/-- `instanceof OptionalSchema` (source line 398): a top-level `Optional`
wrapper; `OptionalSchema` has no subclasses. -/
def isOptionalInstance : Sch → Bool
  | .optional _ _ => true
  | _ => false

/-- The `required` list of `ObjectSchema.toJsonSchema` (source 396-399):
declared keys, in declaration order, whose field schema is not an
`OptionalSchema` instance. -/
def requiredKeys (shape : List (String × Sch)) : List String :=
  (shape.filter (fun ks => !(isOptionalInstance ks.2))).map (fun ks => ks.1)

/-- `JSON.stringify` of a literal for the `const` keyword (source 440). -/
def primToJson : Prim → Json
  | .str s => .str s
  | .num .nan => .null
  | .num (.val q) => .num q
  | .bool b => .bool b

mutual

/-- `Schema.toJsonSchema` across all variants; coerced schemas inherit their
base class's implementation unchanged. -/
def toJsonSchema : Sch → Json
  | .str _ checks => .obj (checks.foldl strCheckJson [("type", .str "string")])
  | .num _ checks => .obj (checks.foldl numCheckJson [("type", .str "number")])
  | .bool _ => .obj [("type", .str "boolean")]
  | .coercedStr _ checks => .obj (checks.foldl strCheckJson [("type", .str "string")])
  | .coercedNum _ checks => .obj (checks.foldl numCheckJson [("type", .str "number")])
  | .coercedBool _ => .obj [("type", .str "boolean")]
  | .arr _ checks item =>
      .obj (checks.foldl arrCheckJson [("type", .str "array"), ("items", toJsonSchema item)])
  | .obj _ shape =>
      let base := [("type", .str "object"), ("properties", .obj (toJsonFields shape))]
      .obj (if (requiredKeys shape).isEmpty then base
            else base ++ [("required", .arr ((requiredKeys shape).map .str))])
  | .record _ valueSchema =>
      .obj [("type", .str "object"), ("additionalProperties", toJsonSchema valueSchema)]
  | .enum _ values => .obj [("type", .str "string"), ("enum", .arr (values.map .str))]
  | .literal _ value => .obj [("const", primToJson value)]
  | .union _ schemas => .obj [("oneOf", .arr (toJsonList schemas))]
  | .date _ _ => .obj [("type", .str "string"), ("format", .str "date-time")]
  | .optional _ inner => toJsonSchema inner
  | .nullable _ inner =>
      .obj [("oneOf", .arr [toJsonSchema inner, .obj [("type", .str "null")]])]
  | .transform _ inner _ => toJsonSchema inner
termination_by s => (sizeOf s, 0)

/-- The `properties` loop of `ObjectSchema.toJsonSchema` (source 396-397). -/
def toJsonFields : List (String × Sch) → List (String × Json)
  | [] => []
  | (k, s) :: rest => (k, toJsonSchema s) :: toJsonFields rest
termination_by shape => (sizeOf shape, 0)

/-- `this.schemas.map((s) => s.toJsonSchema())` (source 461). -/
def toJsonList : List Sch → List Json
  | [] => []
  | s :: rest => toJsonSchema s :: toJsonList rest
termination_by schemas => (sizeOf schemas, 0)

end

/-- Member lookup in an exported document. -/
def jsonMember (j : Json) (k : String) : Option Json :=
  match j with
  | .obj fields => List.lookup k fields
  | _ => none

/-- The `required` array of an exported document, as a string list
(absent or non-array members give `[]`). -/
def requiredOf (j : Json) : List String :=
  match jsonMember j "required" with
  | some (.arr xs) => xs.filterMap (fun x => match x with | .str s => some s | _ => none)
  | _ => []

-- ── Custom-message plumbing ──────────────────────────────────────────

/-- `Schema.message(msg)` (source 26-29): sets `_customMessage` on the
receiving schema instance, leaving children untouched. -/
def setMsg (s : Sch) (m : String) : Sch :=
  match s with
  | .str _ checks => .str (some m) checks
  | .num _ checks => .num (some m) checks
  | .bool _ => .bool (some m)
  | .coercedStr _ checks => .coercedStr (some m) checks
  | .coercedNum _ checks => .coercedNum (some m) checks
  | .coercedBool _ => .coercedBool (some m)
  | .arr _ checks item => .arr (some m) checks item
  | .obj _ shape => .obj (some m) shape
  | .record _ valueSchema => .record (some m) valueSchema
  | .enum _ values => .enum (some m) values
  | .literal _ value => .literal (some m) value
  | .union _ schemas => .union (some m) schemas
  | .date _ checks => .date (some m) checks
  | .optional _ inner => .optional (some m) inner
  | .nullable _ inner => .nullable (some m) inner
  | .transform _ inner fn => .transform (some m) inner fn

/-- The node's `_customMessage`. -/
def msgOf : Sch → Option String
  | .str m _ => m
  | .num m _ => m
  | .bool m => m
  | .coercedStr m _ => m
  | .coercedNum m _ => m
  | .coercedBool m => m
  | .arr m _ _ => m
  | .obj m _ => m
  | .record m _ => m
  | .enum m _ => m
  | .literal m _ => m
  | .union m _ => m
  | .date m _ => m
  | .optional m _ => m
  | .nullable m _ => m
  | .transform m _ _ => m

/-- The default messages a node can pass to `Schema.fail` for its own
primary type/shape failure (wrappers never call `fail`; `DateSchema` has
two primary failures). -/
def primaryDefaults : Sch → List String
  | .str _ _ => ["Expected string"]
  | .num _ _ => ["Expected number"]
  | .bool _ => ["Expected boolean"]
  | .coercedStr _ _ => ["Expected string"]
  | .coercedNum _ _ => ["Expected number"]
  | .coercedBool _ => ["Expected boolean"]
  | .arr _ _ _ => ["Expected array"]
  | .obj _ _ => ["Expected object"]
  | .record _ _ => ["Expected object"]
  | .enum _ values => ["Expected one of: " ++ String.intercalate ", " values]
  | .literal _ value => ["Expected literal " ++ jsonStringifyPrim value]
  | .union _ _ => ["Value does not match any type in the union"]
  | .date _ _ => ["Expected date string", "Invalid date"]
  | .optional _ _ => []
  | .nullable _ _ => []
  | .transform _ _ _ => []

/-- The claim-side structural predicate of C3: an `Optional` wrapper
anywhere in the wrapper chain (`optional`/`nullable`/`transform` nesting). -/
def hasOptionalWrapper : Sch → Bool
  | .optional _ _ => true
  | .nullable _ inner => hasOptionalWrapper inner
  | .transform _ inner _ => hasOptionalWrapper inner
  | _ => false

-- ── Claim-side (specification) descriptions ──────────────────────────

/-- Spec-side for C5: the message of a single string check when it fails
(none when it passes). -/
def strCheckFailMsg : StrCheck → String → Option String
  | .min n, s =>
      if s.length < n then some ("String must be at least " ++ toString n ++ " characters")
      else none
  | .max n, s =>
      if s.length > n then some ("String must be at most " ++ toString n ++ " characters")
      else none
  | .pattern re, s =>
      if !(re.test s) then some ("String must match pattern /" ++ re.source ++ "/")
      else none

/-- Spec-side for C1: the results of parsing every element of `xs` in index
order against `item`, indices starting at `i`. -/
def childResultsFrom (item : Sch) (p : String) : Nat → List Value → List (Except Thrown Value)
  | _, [] => []
  | i, x :: rest => parse item x (extendIdx p i) :: childResultsFrom item p (i + 1) rest

/-- Spec-side for C1: the results of parsing every declared key's value, in
declaration order. -/
def objChildResults (shape : List (String × Sch)) (fields : List (String × Value))
    (p : String) : List (Except Thrown Value) :=
  shape.map (fun ks => parse ks.2 (jsGet fields ks.1) (extendKey p ks.1))

/-- Spec-side for C1: the reconstructed object — each declared key whose
child parse succeeded with a defined value, in declaration order. -/
def objOutput (shape : List (String × Sch)) (fields : List (String × Value))
    (p : String) : List (String × Value) :=
  shape.filterMap (fun ks =>
    match parse ks.2 (jsGet fields ks.1) (extendKey p ks.1) with
    | .ok v => match v with | .undefinedV => none | _ => some (ks.1, v)
    | .error _ => none)

/-- Spec-side for C1: the results of parsing every observed entry's value of
a record input, in iteration order. -/
def recChildResults (valueSchema : Sch) (entries : List (String × Value))
    (p : String) : List (Except Thrown Value) :=
  entries.map (fun kv => parse valueSchema kv.2 (extendKey p kv.1))

/-- Spec-side for C1: the reconstructed record — every observed key with its
validated value, in iteration order. -/
def recOutput (valueSchema : Sch) (entries : List (String × Value))
    (p : String) : List (String × Value) :=
  entries.filterMap (fun kv =>
    match parse valueSchema kv.2 (extendKey p kv.1) with
    | .ok v => some (kv.1, v)
    | .error _ => none)

/-- Spec-side for C1: the child `ValidationError` issues of a result list,
concatenated in visit order. -/
def collectVErrIssues (rs : List (Except Thrown Value)) : List ValidationIssue :=
  match rs with
  | [] => []
  | .error (.verr e) :: rest => e.issues ++ collectVErrIssues rest
  | _ :: rest => collectVErrIssues rest

/-- Spec-side for C1: the successfully parsed child values, in visit order. -/
def okValues (rs : List (Except Thrown Value)) : List Value :=
  rs.filterMap Except.toOption

/-- Spec-side: a result list contains no non-`ValidationError` exception. -/
def NoOther (rs : List (Except Thrown Value)) : Prop :=
  ∀ t, Except.error (Thrown.other t) ∉ rs

/-- Spec-side for C8: an issue's path extends the path argument `p`. -/
def ExtendsPath (p : String) (i : ValidationIssue) : Prop :=
  ∃ q, i.path = p ++ q

/-- Spec-side for C8: the well-formedness the claim asserts of every raised
`ValidationError`: non-empty issues, all anchored at `p` or deeper, and the
summary message joins the issue messages. -/
def GoodErr (p : String) (e : ValidationError) : Prop :=
  e.issues ≠ [] ∧ (∀ i ∈ e.issues, ExtendsPath p i) ∧
    e.message = "Validation failed: " ++
      String.intercalate ", " (e.issues.map (fun i => i.message))

/-- The literal regex `/b/`: its `test` succeeds whenever `"b"` occurs
anywhere in the string; its full-string matches are exactly `"b"`. -/
def reB : JsRegExp := ⟨"b", fun s => s.data.contains 'b'⟩

-- ── Helper lemmas ────────────────────────────────────────────────────

theorem parseUnion_eq_findSome (v : Value) (p : String) (schemas : List Sch) :
    parseUnion schemas v p =
      (schemas.map (fun s => parse s v p)).findSome? Except.toOption := by
  induction schemas with
  | nil => simp [parseUnion]
  | cons s rest ih =>
      cases h : parse s v p with
      | ok r => simp [parseUnion, h, Except.toOption]
      | error e => simp [parseUnion, h, Except.toOption, ih]

theorem runStrChecks_eq_findSome (s : String) (p : String) (checks : List StrCheck) :
    runStrChecks checks s p =
      match checks.findSome? (fun c => strCheckFailMsg c s) with
      | some msg => .error (.verr (ValidationError.ofIssues [⟨p, msg⟩]))
      | none => .ok (.str s) := by
  induction checks with
  | nil => simp [runStrChecks]
  | cons c rest ih =>
      cases c with
      | min n =>
          by_cases h : s.length < n <;> simp [runStrChecks, strCheckFailMsg, h, ih]
      | max n =>
          by_cases h : s.length > n <;> simp [runStrChecks, strCheckFailMsg, h, ih]
      | pattern re =>
          by_cases h : re.test s <;> simp [runStrChecks, strCheckFailMsg, h, ih]

-- ── Claim C6 ─────────────────────────────────────────────────────────

/-- C6: a union schema attempts each member in declaration order and returns
the result of the first member whose parse does not fail, discarding all
intermediate failures; if no member succeeds it raises a `ValidationError`
with the single issue `_customMessage ?? "Value does not match any type in
the union"` anchored at the current path — never an aggregation of
per-member diagnostics (the builder `v.union` leaves `_customMessage`
unset, giving exactly the generic message). -/
theorem union_first_match (m : Option String) (schemas : List Sch) (v : Value) (p : String) :
    parse (.union m schemas) v p =
      match (schemas.map (fun s => parse s v p)).findSome? Except.toOption with
      | some w => .ok w
      | none => .error (.verr (ValidationError.ofIssues
          [⟨p, m.getD "Value does not match any type in the union"⟩])) := by
  rw [show parse (.union m schemas) v p =
      (match parseUnion schemas v p with
       | some r => .ok r
       | none => typeFail m p "Value does not match any type in the union") from by
    simp [parse]]
  rw [parseUnion_eq_findSome]
  cases h : (schemas.map (fun s => parse s v p)).findSome? Except.toOption <;>
    simp [typeFail]

-- ── Claim C5 ─────────────────────────────────────────────────────────

/-- C5 (amended): a string schema fails unless the input is a string, then
evaluates its checks in attachment order — `min`/`max` on length, `pattern`
via the regex's `test` (a match anywhere in the string, not necessarily a
full-string match) — raising immediately on the first failing check with
exactly one issue; in particular `string().min(3).max(5)` parsing `"ab"`
yields exactly one issue, about the min-length check. -/
theorem string_checks_fail_fast (m : Option String) (checks : List StrCheck) (p : String) :
    (∀ s : String, parse (.str m checks) (.str s) p =
        match checks.findSome? (fun c => strCheckFailMsg c s) with
        | some msg => .error (.verr (ValidationError.ofIssues [⟨p, msg⟩]))
        | none => .ok (.str s))
    ∧ (∀ v : Value, (∀ s, v ≠ .str s) →
        parse (.str m checks) v p =
          .error (.verr (ValidationError.ofIssues [⟨p, m.getD "Expected string"⟩])))
    ∧ parse (.str none [.min 3, .max 5]) (.str "ab") "" =
        .error (.verr (ValidationError.ofIssues
          [⟨"", "String must be at least 3 characters"⟩])) := by
  refine ⟨?_, ?_, ?_⟩
  · intro s
    rw [show parse (.str m checks) (.str s) p = runStrChecks checks s p from by simp [parse]]
    exact runStrChecks_eq_findSome s p checks
  · intro v hv
    cases v <;> simp [parse, typeFail]
    exact absurd rfl (hv _)
  · have h : "ab".length < 3 := by decide
    simp [parse, runStrChecks, h]
    decide

/-- Witness for C5: a non-string input fails with the string type issue. -/
theorem string_checks_fail_fast_witness :
    parse (.str none []) (.num .nan) "" =
      .error (.verr (ValidationError.ofIssues [⟨"", "Expected string"⟩])) :=
  (string_checks_fail_fast none [] "").2.1 (.num .nan) (fun _ h => nomatch h)

/-- Counterexample for C5 as stated: the source checks `pattern` with
`RegExp.prototype.test`, which matches anywhere in the string, not only on a
full-string match. With the pattern `/b/` (whose only full-string match is
`"b"`), the input `"abc"` is accepted even though it is not a full-string
match. -/
theorem string_pattern_not_full_match :
    parse (.str none [.pattern reB]) (.str "abc") "" = .ok (.str "abc")
    ∧ "abc" ≠ "b" ∧ reB.test "abc" = true := by
  refine ⟨?_, by decide, by decide⟩
  have h : reB.test "abc" = true := by decide
  simp [parse, runStrChecks, h]

-- ── Claim C7 ─────────────────────────────────────────────────────────

/-- C7: a coerced number schema accepts a number input unchanged (subject to
the same constraint chain as the plain number schema); a string input is
trimmed, fails if the trimmed string is empty, and is otherwise converted by
the numeric parse and handed to the plain number schema — so NaN results
fail and min/max/integer constraints see the coerced value; any other input
type fails immediately. -/
theorem coerced_number_parse (m : Option String) (checks : List NumCheck) (p : String) :
    (∀ jn : JNum, parse (.coercedNum m checks) (.num jn) p = parse (.num m checks) (.num jn) p)
    ∧ (∀ s : String, jsTrim s = "" →
        parse (.coercedNum m checks) (.str s) p =
          .error (.verr (ValidationError.ofIssues [⟨p, m.getD "Expected number"⟩])))
    ∧ (∀ s : String, jsTrim s ≠ "" →
        parse (.coercedNum m checks) (.str s) p =
          parse (.num m checks) (.num (jsStringToNumber (jsTrim s))) p)
    ∧ (∀ v : Value, (∀ s, v ≠ .str s) → (∀ jn, v ≠ .num jn) →
        parse (.coercedNum m checks) v p =
          .error (.verr (ValidationError.ofIssues [⟨p, m.getD "Expected number"⟩]))) := by
  refine ⟨?_, ?_, ?_, ?_⟩
  · intro jn; simp [parse]
  · intro s hs; simp [parse, hs, typeFail]
  · intro s hs; simp [parse, hs]
  · intro v hs hn
    cases v <;> simp [parse, typeFail]
    · exact absurd rfl (hs _)
    · exact absurd rfl (hn _)

/-- Witness for C7: `coerce.number()` on `""`, `"  "` and `"  42  "`. -/
theorem coerced_number_parse_witness :
    parse (.coercedNum none []) (.str "") "" =
      .error (.verr (ValidationError.ofIssues [⟨"", "Expected number"⟩]))
    ∧ parse (.coercedNum none []) (.str "  ") "" =
      .error (.verr (ValidationError.ofIssues [⟨"", "Expected number"⟩]))
    ∧ parse (.coercedNum none []) (.str "  42  ") "" = .ok (.num (.val 42)) := by
  refine ⟨(coerced_number_parse none [] "").2.1 "" (by decide),
    (coerced_number_parse none [] "").2.1 "  " (by decide), ?_⟩
  rw [(coerced_number_parse none [] "").2.2.1 "  42  " (by decide)]
  have h1 : jsStringToNumber (jsTrim "  42  ") = .val ((42 : ℤ) : ℚ) := by decide
  rw [h1]
  have h2 : ((42 : ℤ) : ℚ) = (42 : ℚ) := by norm_num
  rw [h2]
  simp [parse, numberCore, runNumChecks]

-- ── Claim C10 ────────────────────────────────────────────────────────

theorem jsGet_append_absent_undef (fields : List (String × Value)) (k : String)
    (h : k ∉ fields.map Prod.fst) (k' : String) :
    jsGet (fields ++ [(k, .undefinedV)]) k' = jsGet fields k' := by
  induction fields with
  | nil =>
      simp only [List.nil_append, jsGet, List.lookup]
      cases h' : (k' == k) <;> simp
  | cons kv rest ih =>
      have hk : k ∉ rest.map Prod.fst := by
        intro hmem; exact h (by simp [hmem])
      by_cases he : k' = kv.1
      · simp [jsGet, List.lookup, he]
      · have := ih hk
        simp [jsGet, List.lookup, he] at this ⊢
        have hb : (k' == kv.1) = false := by simp [he]
        simp [hb]
        simpa [jsGet] using this

theorem parseFields_ext (p : String) (shape : List (String × Sch))
    (fields1 fields2 : List (String × Value))
    (h : ∀ key, jsGet fields1 key = jsGet fields2 key) :
    parseFields p shape fields1 = parseFields p shape fields2 := by
  induction shape with
  | nil => simp [parseFields]
  | cons ks rest ih =>
      obtain ⟨key, fieldSchema⟩ := ks
      simp only [parseFields, h key, ih]

/-- C10: a declared key entirely absent from the input is validated exactly
as if it were present with value `undefined` (adding an explicit
`undefined` entry for an absent key never changes the result), and a missing
non-optional field surfaces as the field schema's own type-mismatch issue at
the field's path — e.g. a missing `name: string()` yields `"Expected
string"` at path `"name"`, with no distinct "missing key" message. -/
theorem object_missing_key_as_undefined (m : Option String)
    (shape : List (String × Sch)) (fields : List (String × Value)) (p k : String)
    (h : k ∉ fields.map Prod.fst) :
    parse (.obj m shape) (.obj (fields ++ [(k, .undefinedV)])) p
      = parse (.obj m shape) (.obj fields) p
    ∧ parse (.obj none [("name", .str none [])]) (.obj []) "" =
        .error (.verr (ValidationError.ofIssues [⟨"name", "Expected string"⟩])) := by
  constructor
  · have := parseFields_ext p shape (fields ++ [(k, .undefinedV)]) fields
      (jsGet_append_absent_undef fields k h)
    simp [parse, this]
  · simp [parse, parseFields, jsGet, extendKey, typeFail, List.lookup,
      ValidationError.ofIssues]

/-- Witness for C10: appending `extra: undefined` to an input that lacks
`extra` leaves the parse of `{name: string()}` unchanged. -/
theorem object_missing_key_as_undefined_witness :
    parse (.obj none [("name", .str none [])])
        (.obj ([("name", Value.str "a")] ++ [("extra", Value.undefinedV)])) ""
      = parse (.obj none [("name", .str none [])]) (.obj [("name", Value.str "a")]) "" :=
  (object_missing_key_as_undefined none [("name", .str none [])]
    [("name", Value.str "a")] "" "extra" (by simp)).1

-- ── Claim C8: helper lemmas ──────────────────────────────────────────

theorem extendIdx_eq_append (p : String) (i : Nat) :
    extendIdx p i = p ++ ("[" ++ toString i ++ "]") := by
  by_cases h : p = "" <;> simp [extendIdx, h, String.append_assoc]

theorem extendKey_exists_append (p k : String) :
    ∃ q, extendKey p k = p ++ q := by
  by_cases h : p = ""
  · exact ⟨k, by simp [extendKey, h]⟩
  · exact ⟨"." ++ k, by simp [extendKey, h, String.append_assoc]⟩

theorem extendsPath_trans {p q0 : String} {i : ValidationIssue}
    (h : ExtendsPath (p ++ q0) i) : ExtendsPath p i := by
  obtain ⟨q, hq⟩ := h
  exact ⟨q0 ++ q, by rw [hq, String.append_assoc]⟩

theorem goodErr_single (p msg : String) :
    GoodErr p (ValidationError.ofIssues [⟨p, msg⟩]) := by
  refine ⟨by simp [ValidationError.ofIssues], ?_, by simp [ValidationError.ofIssues]⟩
  intro i hi
  simp [ValidationError.ofIssues] at hi
  exact ⟨"", by rw [hi, String.append_empty]⟩

theorem typeFail_verr {m : Option String} {p d : String} {ex : Thrown}
    (h : typeFail m p d = .error ex) : ∃ e, ex = .verr e ∧ GoodErr p e := by
  simp [typeFail] at h
  exact ⟨_, h.symm, goodErr_single p (m.getD d)⟩

theorem runStrChecks_verr {s p : String} :
    ∀ {checks : List StrCheck} {ex : Thrown}, runStrChecks checks s p = .error ex →
      ∃ e, ex = .verr e ∧ GoodErr p e := by
  intro checks
  induction checks with
  | nil => intro ex h; simp [runStrChecks] at h
  | cons c rest ih =>
      intro ex h
      cases c with
      | min n =>
          by_cases hc : s.length < n
          · simp only [runStrChecks, if_pos hc, Except.error.injEq] at h
            exact ⟨_, h.symm, goodErr_single p _⟩
          · simp only [runStrChecks, if_neg hc] at h
            exact ih h
      | max n =>
          by_cases hc : s.length > n
          · simp only [runStrChecks, if_pos hc, Except.error.injEq] at h
            exact ⟨_, h.symm, goodErr_single p _⟩
          · simp only [runStrChecks, if_neg hc] at h
            exact ih h
      | pattern re =>
          by_cases hc : !(re.test s)
          · simp only [runStrChecks, if_pos hc, Except.error.injEq] at h
            exact ⟨_, h.symm, goodErr_single p _⟩
          · simp only [runStrChecks, if_neg hc] at h
            exact ih h

theorem runNumChecks_verr {q : ℚ} {p : String} :
    ∀ {checks : List NumCheck} {ex : Thrown}, runNumChecks checks q p = .error ex →
      ∃ e, ex = .verr e ∧ GoodErr p e := by
  intro checks
  induction checks with
  | nil => intro ex h; simp [runNumChecks] at h
  | cons c rest ih =>
      intro ex h
      cases c with
      | min n =>
          by_cases hc : q < n
          · simp only [runNumChecks, if_pos hc, Except.error.injEq] at h
            exact ⟨_, h.symm, goodErr_single p _⟩
          · simp only [runNumChecks, if_neg hc] at h
            exact ih h
      | max n =>
          by_cases hc : q > n
          · simp only [runNumChecks, if_pos hc, Except.error.injEq] at h
            exact ⟨_, h.symm, goodErr_single p _⟩
          · simp only [runNumChecks, if_neg hc] at h
            exact ih h
      | integer =>
          by_cases hc : ¬(q.den = 1)
          · simp only [runNumChecks, if_pos hc, Except.error.injEq] at h
            exact ⟨_, h.symm, goodErr_single p _⟩
          · simp only [runNumChecks, if_neg hc] at h
            exact ih h

theorem numberCore_verr {m : Option String} {checks : List NumCheck} {jn : JNum}
    {p : String} {ex : Thrown} (h : numberCore m checks jn p = .error ex) :
    ∃ e, ex = .verr e ∧ GoodErr p e := by
  cases jn with
  | nan => exact typeFail_verr h
  | val q => exact runNumChecks_verr h

theorem runArrChecks_verr {len : Nat} {p : String} :
    ∀ {checks : List ArrCheck} {ex : Thrown}, runArrChecks checks len p = .error ex →
      ∃ e, ex = .verr e ∧ GoodErr p e := by
  intro checks
  induction checks with
  | nil => intro ex h; simp [runArrChecks] at h
  | cons c rest ih =>
      intro ex h
      cases c with
      | min n =>
          by_cases hc : len < n
          · simp only [runArrChecks, if_pos hc, Except.error.injEq] at h
            exact ⟨_, h.symm, goodErr_single p _⟩
          · simp only [runArrChecks, if_neg hc] at h
            exact ih h
      | max n =>
          by_cases hc : len > n
          · simp only [runArrChecks, if_pos hc, Except.error.injEq] at h
            exact ⟨_, h.symm, goodErr_single p _⟩
          · simp only [runArrChecks, if_neg hc] at h
            exact ih h

theorem runDateChecks_verr {t : Int} {p : String} :
    ∀ {checks : List DateCheck} {ex : Thrown}, runDateChecks checks t p = .error ex →
      ∃ e, ex = .verr e ∧ GoodErr p e := by
  intro checks
  induction checks with
  | nil => intro ex h; simp [runDateChecks] at h
  | cons c rest ih =>
      intro ex h
      cases c with
      | min b =>
          by_cases hc : t < b
          · simp only [runDateChecks, if_pos hc, Except.error.injEq] at h
            exact ⟨_, h.symm, goodErr_single p _⟩
          · simp only [runDateChecks, if_neg hc] at h
            exact ih h
      | max b =>
          by_cases hc : t > b
          · simp only [runDateChecks, if_pos hc, Except.error.injEq] at h
            exact ⟨_, h.symm, goodErr_single p _⟩
          · simp only [runDateChecks, if_neg hc] at h
            exact ih h

theorem parseItems_error_other (item : Sch) (p : String) :
    ∀ (xs : List Value) (i : Nat) (ex : Thrown),
      parseItems item p i xs = .error ex → ∃ t, ex = .other t := by
  intro xs
  induction xs with
  | nil => intro i ex h; simp [parseItems] at h
  | cons x rest ih =>
      intro i ex h
      simp only [parseItems] at h
      cases hp : parse item x (extendIdx p i) with
      | ok v =>
          rw [hp] at h
          cases hrec : parseItems item p (i + 1) rest with
          | ok pr => obtain ⟨a, b⟩ := pr; rw [hrec] at h; simp at h
          | error e2 =>
              rw [hrec] at h
              simp only [Except.error.injEq] at h
              exact h ▸ ih (i + 1) e2 hrec
      | error e =>
          cases e with
          | verr ev =>
              rw [hp] at h
              cases hrec : parseItems item p (i + 1) rest with
              | ok pr => obtain ⟨a, b⟩ := pr; rw [hrec] at h; simp at h
              | error e2 =>
                  rw [hrec] at h
                  simp only [Except.error.injEq] at h
                  exact h ▸ ih (i + 1) e2 hrec
          | other t =>
              rw [hp] at h
              simp only [Except.error.injEq] at h
              exact ⟨t, h.symm⟩

theorem parseItems_ok_issues (item : Sch) (p : String)
    (IH : ∀ x q e, parse item x q = .error (.verr e) → GoodErr q e) :
    ∀ (xs : List Value) (i : Nat) (issues : List ValidationIssue)
      (res : List Value), parseItems item p i xs = .ok (issues, res) →
      ∀ iss ∈ issues, ExtendsPath p iss := by
  intro xs
  induction xs with
  | nil =>
      intro i issues res h iss hm
      simp [parseItems] at h
      rw [h.1] at hm
      simp at hm
  | cons x rest ih =>
      intro i issues res h iss hm
      simp only [parseItems] at h
      cases hp : parse item x (extendIdx p i) with
      | ok v =>
          rw [hp] at h
          cases hrec : parseItems item p (i + 1) rest with
          | ok pr =>
              obtain ⟨is, r⟩ := pr
              rw [hrec] at h
              simp only [Except.ok.injEq, Prod.mk.injEq] at h
              rw [← h.1] at hm
              exact ih (i + 1) is r hrec iss hm
          | error e2 => rw [hrec] at h; simp at h
      | error e =>
          cases e with
          | verr ev =>
              rw [hp] at h
              cases hrec : parseItems item p (i + 1) rest with
              | ok pr =>
                  obtain ⟨is, r⟩ := pr
                  rw [hrec] at h
                  simp only [Except.ok.injEq, Prod.mk.injEq] at h
                  rw [← h.1] at hm
                  rcases List.mem_append.mp hm with hl | hr
                  · have hg := (IH x (extendIdx p i) ev hp).2.1 iss hl
                    rw [extendIdx_eq_append] at hg
                    exact extendsPath_trans hg
                  · exact ih (i + 1) is r hrec iss hr
              | error e2 => rw [hrec] at h; simp at h
          | other t => rw [hp] at h; simp at h

theorem parseFields_error_other (p : String) (fields : List (String × Value)) :
    ∀ (shape : List (String × Sch)) (ex : Thrown),
      parseFields p shape fields = .error ex → ∃ t, ex = .other t := by
  intro shape
  induction shape with
  | nil => intro ex h; simp [parseFields] at h
  | cons ks rest ih =>
      obtain ⟨key, fs⟩ := ks
      intro ex h
      simp only [parseFields] at h
      cases hp : parse fs (jsGet fields key) (extendKey p key) with
      | ok v =>
          rw [hp] at h
          cases hrec : parseFields p rest fields with
          | ok pr => obtain ⟨a, b⟩ := pr; rw [hrec] at h; simp at h
          | error e2 =>
              rw [hrec] at h
              simp only [Except.error.injEq] at h
              exact h ▸ ih e2 hrec
      | error e =>
          cases e with
          | verr ev =>
              rw [hp] at h
              cases hrec : parseFields p rest fields with
              | ok pr => obtain ⟨a, b⟩ := pr; rw [hrec] at h; simp at h
              | error e2 =>
                  rw [hrec] at h
                  simp only [Except.error.injEq] at h
                  exact h ▸ ih e2 hrec
          | other t =>
              rw [hp] at h
              simp only [Except.error.injEq] at h
              exact ⟨t, h.symm⟩

theorem parseFields_ok_issues (p : String) (fields : List (String × Value)) :
    ∀ (shape : List (String × Sch)),
      (∀ ks ∈ shape, ∀ v q e, parse ks.2 v q = .error (.verr e) → GoodErr q e) →
      ∀ (issues : List ValidationIssue) (res : List (String × Value)),
        parseFields p shape fields = .ok (issues, res) →
        ∀ iss ∈ issues, ExtendsPath p iss := by
  intro shape
  induction shape with
  | nil =>
      intro _ issues res h iss hm
      simp [parseFields] at h
      rw [h.1] at hm
      simp at hm
  | cons ks rest ih =>
      obtain ⟨key, fs⟩ := ks
      intro IH issues res h iss hm
      have IHrest : ∀ ks ∈ rest, ∀ v q e, parse ks.2 v q = .error (.verr e) → GoodErr q e :=
        fun ks hks => IH ks (List.mem_cons_of_mem _ hks)
      simp only [parseFields] at h
      cases hp : parse fs (jsGet fields key) (extendKey p key) with
      | ok v =>
          rw [hp] at h
          cases hrec : parseFields p rest fields with
          | ok pr =>
              obtain ⟨is, r⟩ := pr
              rw [hrec] at h
              simp only [Except.ok.injEq, Prod.mk.injEq] at h
              rw [← h.1] at hm
              exact ih IHrest is r hrec iss hm
          | error e2 => rw [hrec] at h; simp at h
      | error e =>
          cases e with
          | verr ev =>
              rw [hp] at h
              cases hrec : parseFields p rest fields with
              | ok pr =>
                  obtain ⟨is, r⟩ := pr
                  rw [hrec] at h
                  simp only [Except.ok.injEq, Prod.mk.injEq] at h
                  rw [← h.1] at hm
                  rcases List.mem_append.mp hm with hl | hr
                  · have hg := (IH (key, fs) (List.mem_cons_self _ _)
                      (jsGet fields key) (extendKey p key) ev hp).2.1 iss hl
                    obtain ⟨q0, hq0⟩ := extendKey_exists_append p key
                    rw [hq0] at hg
                    exact extendsPath_trans hg
                  · exact ih IHrest is r hrec iss hr
              | error e2 => rw [hrec] at h; simp at h
          | other t => rw [hp] at h; simp at h

theorem parseRecordEntries_error_other (valueSchema : Sch) (p : String) :
    ∀ (entries : List (String × Value)) (ex : Thrown),
      parseRecordEntries valueSchema p entries = .error ex → ∃ t, ex = .other t := by
  intro entries
  induction entries with
  | nil => intro ex h; simp [parseRecordEntries] at h
  | cons kv rest ih =>
      obtain ⟨key, val⟩ := kv
      intro ex h
      simp only [parseRecordEntries] at h
      cases hp : parse valueSchema val (extendKey p key) with
      | ok v =>
          rw [hp] at h
          cases hrec : parseRecordEntries valueSchema p rest with
          | ok pr => obtain ⟨a, b⟩ := pr; rw [hrec] at h; simp at h
          | error e2 =>
              rw [hrec] at h
              simp only [Except.error.injEq] at h
              exact h ▸ ih e2 hrec
      | error e =>
          cases e with
          | verr ev =>
              rw [hp] at h
              cases hrec : parseRecordEntries valueSchema p rest with
              | ok pr => obtain ⟨a, b⟩ := pr; rw [hrec] at h; simp at h
              | error e2 =>
                  rw [hrec] at h
                  simp only [Except.error.injEq] at h
                  exact h ▸ ih e2 hrec
          | other t =>
              rw [hp] at h
              simp only [Except.error.injEq] at h
              exact ⟨t, h.symm⟩

theorem parseRecordEntries_ok_issues (valueSchema : Sch) (p : String)
    (IH : ∀ x q e, parse valueSchema x q = .error (.verr e) → GoodErr q e) :
    ∀ (entries : List (String × Value)) (issues : List ValidationIssue)
      (res : List (String × Value)),
      parseRecordEntries valueSchema p entries = .ok (issues, res) →
      ∀ iss ∈ issues, ExtendsPath p iss := by
  intro entries
  induction entries with
  | nil =>
      intro issues res h iss hm
      simp [parseRecordEntries] at h
      rw [h.1] at hm
      simp at hm
  | cons kv rest ih =>
      obtain ⟨key, val⟩ := kv
      intro issues res h iss hm
      simp only [parseRecordEntries] at h
      cases hp : parse valueSchema val (extendKey p key) with
      | ok v =>
          rw [hp] at h
          cases hrec : parseRecordEntries valueSchema p rest with
          | ok pr =>
              obtain ⟨is, r⟩ := pr
              rw [hrec] at h
              simp only [Except.ok.injEq, Prod.mk.injEq] at h
              rw [← h.1] at hm
              exact ih is r hrec iss hm
          | error e2 => rw [hrec] at h; simp at h
      | error e =>
          cases e with
          | verr ev =>
              rw [hp] at h
              cases hrec : parseRecordEntries valueSchema p rest with
              | ok pr =>
                  obtain ⟨is, r⟩ := pr
                  rw [hrec] at h
                  simp only [Except.ok.injEq, Prod.mk.injEq] at h
                  rw [← h.1] at hm
                  rcases List.mem_append.mp hm with hl | hr
                  · have hg := (IH val (extendKey p key) ev hp).2.1 iss hl
                    obtain ⟨q0, hq0⟩ := extendKey_exists_append p key
                    rw [hq0] at hg
                    exact extendsPath_trans hg
                  · exact ih is r hrec iss hr
              | error e2 => rw [hrec] at h; simp at h
          | other t => rw [hp] at h; simp at h

theorem goodErr_of_thrown {p : String} {e : ValidationError}
    (h : ∃ e', Thrown.verr e = Thrown.verr e' ∧ GoodErr p e') : GoodErr p e := by
  obtain ⟨e', he, hg⟩ := h
  injection he with h1
  subst h1
  exact hg

theorem ofIssues_good {p : String} {issues : List ValidationIssue}
    (hne : issues ≠ []) (hext : ∀ iss ∈ issues, ExtendsPath p iss) :
    GoodErr p (ValidationError.ofIssues issues) := by
  refine ⟨by simpa [ValidationError.ofIssues] using hne, ?_, by simp [ValidationError.ofIssues]⟩
  intro i hi
  simp only [ValidationError.ofIssues] at hi
  exact hext i hi

theorem parse_verr_good_aux :
    ∀ (n : Nat) (s : Sch), sizeOf s < n → ∀ v p e,
      parse s v p = .error (.verr e) → GoodErr p e := by
  intro n
  induction n with
  | zero => intro s hs; omega
  | succ n ih =>
    intro s hs v p e hparse
    cases s with
    | str m checks =>
        cases v <;> simp only [parse] at hparse <;>
          first
            | exact goodErr_of_thrown (runStrChecks_verr hparse)
            | exact goodErr_of_thrown (typeFail_verr hparse)
    | num m checks =>
        cases v <;> simp only [parse] at hparse <;>
          first
            | exact goodErr_of_thrown (numberCore_verr hparse)
            | exact goodErr_of_thrown (typeFail_verr hparse)
    | bool m =>
        cases v <;> simp only [parse] at hparse <;>
          first
            | simp at hparse
            | exact goodErr_of_thrown (typeFail_verr hparse)
    | coercedStr m checks =>
        cases v <;> simp only [parse] at hparse <;>
          first
            | exact goodErr_of_thrown (runStrChecks_verr hparse)
            | exact goodErr_of_thrown (typeFail_verr hparse)
    | coercedNum m checks =>
        cases v <;> simp only [parse] at hparse <;>
          first
            | (split at hparse <;>
                first
                  | exact goodErr_of_thrown (typeFail_verr hparse)
                  | exact goodErr_of_thrown (numberCore_verr hparse))
            | exact goodErr_of_thrown (numberCore_verr hparse)
            | exact goodErr_of_thrown (typeFail_verr hparse)
    | coercedBool m =>
        cases v <;> simp only [parse] at hparse <;>
          first
            | (split at hparse <;>
                first
                  | simp at hparse
                  | (split at hparse <;>
                      first
                        | simp at hparse
                        | exact goodErr_of_thrown (typeFail_verr hparse)))
            | simp at hparse
            | exact goodErr_of_thrown (typeFail_verr hparse)
    | arr m checks item =>
        have hlt : sizeOf item < sizeOf (Sch.arr m checks item) := by simp_arith
        have childIH : ∀ x q e', parse item x q = .error (.verr e') → GoodErr q e' :=
          fun x q e' h' => ih item (by omega) x q e' h'
        cases v <;> simp only [parse] at hparse
        case arr xs =>
          cases hrc : runArrChecks checks xs.length p with
          | error ex =>
              rw [hrc] at hparse
              simp only [Except.error.injEq] at hparse
              rw [hparse] at hrc
              exact goodErr_of_thrown (runArrChecks_verr hrc)
          | ok u =>
              cases u
              rw [hrc] at hparse
              cases hpi : parseItems item p 0 xs with
              | error ex =>
                  rw [hpi] at hparse
                  simp only [Except.error.injEq] at hparse
                  obtain ⟨t, ht⟩ := parseItems_error_other item p xs 0 ex hpi
                  simp [hparse] at ht
              | ok pr =>
                  obtain ⟨issues, res⟩ := pr
                  rw [hpi] at hparse
                  by_cases hi : issues.isEmpty
                  · simp [hi] at hparse
                  · simp only [if_neg hi, Except.error.injEq, Thrown.verr.injEq] at hparse
                    rw [← hparse]
                    exact ofIssues_good (by simpa [List.isEmpty_iff] using hi)
                      (parseItems_ok_issues item p childIH xs 0 issues res hpi)
        all_goals exact goodErr_of_thrown (typeFail_verr hparse)
    | obj m shape =>
        have hshape : sizeOf shape < sizeOf (Sch.obj m shape) := by simp_arith
        have memIH : ∀ ks ∈ shape, ∀ v' q e', parse ks.2 v' q = .error (.verr e') →
            GoodErr q e' := by
          intro ks hks v' q e' h'
          have h1 := List.sizeOf_lt_of_mem hks
          have h2 : sizeOf ks.2 < sizeOf shape := by
            obtain ⟨a, b⟩ := ks
            simp_arith at h1 ⊢
            omega
          exact ih ks.2 (by omega) v' q e' h'
        cases v <;> simp only [parse] at hparse
        case obj fields =>
          cases hpf : parseFields p shape fields with
          | error ex =>
              rw [hpf] at hparse
              simp only [Except.error.injEq] at hparse
              obtain ⟨t, ht⟩ := parseFields_error_other p fields shape ex hpf
              simp [hparse] at ht
          | ok pr =>
              obtain ⟨issues, res⟩ := pr
              rw [hpf] at hparse
              by_cases hi : issues.isEmpty
              · simp [hi] at hparse
              · simp only [if_neg hi, Except.error.injEq, Thrown.verr.injEq] at hparse
                rw [← hparse]
                exact ofIssues_good (by simpa [List.isEmpty_iff] using hi)
                  (parseFields_ok_issues p fields shape memIH issues res hpf)
        all_goals exact goodErr_of_thrown (typeFail_verr hparse)
    | record m valueSchema =>
        have hlt : sizeOf valueSchema < sizeOf (Sch.record m valueSchema) := by simp_arith
        have childIH : ∀ x q e', parse valueSchema x q = .error (.verr e') → GoodErr q e' :=
          fun x q e' h' => ih valueSchema (by omega) x q e' h'
        cases v <;> simp only [parse] at hparse
        case obj entries =>
          cases hpr : parseRecordEntries valueSchema p entries with
          | error ex =>
              rw [hpr] at hparse
              simp only [Except.error.injEq] at hparse
              obtain ⟨t, ht⟩ := parseRecordEntries_error_other valueSchema p entries ex hpr
              simp [hparse] at ht
          | ok pr =>
              obtain ⟨issues, res⟩ := pr
              rw [hpr] at hparse
              by_cases hi : issues.isEmpty
              · simp [hi] at hparse
              · simp only [if_neg hi, Except.error.injEq, Thrown.verr.injEq] at hparse
                rw [← hparse]
                exact ofIssues_good (by simpa [List.isEmpty_iff] using hi)
                  (parseRecordEntries_ok_issues valueSchema p childIH entries issues res hpr)
        all_goals exact goodErr_of_thrown (typeFail_verr hparse)
    | enum m values =>
        cases v <;> simp only [parse] at hparse <;>
          first
            | (split at hparse <;>
                first
                  | simp at hparse
                  | exact goodErr_of_thrown (typeFail_verr hparse))
            | exact goodErr_of_thrown (typeFail_verr hparse)
    | literal m value =>
        simp only [parse] at hparse
        split at hparse
        · simp at hparse
        · exact goodErr_of_thrown (typeFail_verr hparse)
    | union m schemas =>
        simp only [parse] at hparse
        cases hu : parseUnion schemas v p with
        | some r => rw [hu] at hparse; simp at hparse
        | none => rw [hu] at hparse; exact goodErr_of_thrown (typeFail_verr hparse)
    | date m checks =>
        cases v <;> simp only [parse] at hparse
        case str s =>
          cases hd : jsDateParse s with
          | none => rw [hd] at hparse; exact goodErr_of_thrown (typeFail_verr hparse)
          | some t => rw [hd] at hparse; exact goodErr_of_thrown (runDateChecks_verr hparse)
        all_goals exact goodErr_of_thrown (typeFail_verr hparse)
    | optional m inner =>
        have hlt : sizeOf inner < sizeOf (Sch.optional m inner) := by simp_arith
        cases v <;> simp only [parse] at hparse <;>
          first
            | simp at hparse
            | exact ih inner (by omega) _ p e hparse
    | nullable m inner =>
        have hlt : sizeOf inner < sizeOf (Sch.nullable m inner) := by simp_arith
        cases v <;> simp only [parse] at hparse <;>
          first
            | simp at hparse
            | exact ih inner (by omega) _ p e hparse
    | transform m inner fn =>
        have hlt : sizeOf inner < sizeOf (Sch.transform m inner fn) := by simp_arith
        cases hin : parse inner v p with
        | ok x =>
            simp only [parse, hin] at hparse
            cases hfx : fn x with
            | ok y => simp only [hfx] at hparse; simp at hparse
            | error t => simp only [hfx] at hparse; simp at hparse
        | error e' =>
            simp only [parse, hin] at hparse
            simp only [Except.error.injEq] at hparse
            rw [hparse] at hin
            exact ih inner (by omega) v p e hin

/-- C8: whenever `parse(value, p)` raises a `ValidationError`, its issues
list is non-empty, every issue's path is `p` itself or an extension of `p`
built by the descent, and the error's summary message joins the individual
issue messages. -/
theorem parse_validation_error_wellformed (s : Sch) (v : Value) (p : String)
    (e : ValidationError) (h : parse s v p = .error (.verr e)) :
    e.issues ≠ [] ∧ (∀ i ∈ e.issues, ExtendsPath p i) ∧
      e.message = "Validation failed: " ++
        String.intercalate ", " (e.issues.map (fun i => i.message)) :=
  parse_verr_good_aux (sizeOf s + 1) s (by omega) v p e h

/-- Witness for C8: a failing string parse at path `"x"`. -/
theorem parse_validation_error_wellformed_witness :
    (ValidationError.ofIssues [⟨"x", "Expected string"⟩]).issues ≠ [] ∧
      (∀ i ∈ (ValidationError.ofIssues [⟨"x", "Expected string"⟩]).issues,
        ExtendsPath "x" i) ∧
      (ValidationError.ofIssues [⟨"x", "Expected string"⟩]).message =
        "Validation failed: " ++ String.intercalate ", "
          ((ValidationError.ofIssues [⟨"x", "Expected string"⟩]).issues.map
            (fun i => i.message)) :=
  parse_validation_error_wellformed (.str none []) (.bool true) "x"
    (ValidationError.ofIssues [⟨"x", "Expected string"⟩])
    (by simp [parse, typeFail])

-- ── Claim C9 ─────────────────────────────────────────────────────────

/-- C9: attaching a custom message changes a schema's behaviour only at its
own primary type/shape failure: either the parse result is unchanged, or the
unmessaged schema failed with one of its primary default messages at `p` and
the messaged schema fails with the custom message there instead. In
particular per-constraint messages and nested child failures are unchanged
(any change is of the `[⟨p, default⟩] ↦ [⟨p, custom⟩]` form). -/
theorem custom_message_replaces_only_primary (s : Sch) (m : String) (v : Value)
    (p : String) (hm : msgOf s = none) :
    parse (setMsg s m) v p = parse s v p ∨
    ∃ d ∈ primaryDefaults s,
      parse s v p = .error (.verr (ValidationError.ofIssues [⟨p, d⟩])) ∧
      parse (setMsg s m) v p = .error (.verr (ValidationError.ofIssues [⟨p, m⟩])) := by
  cases s with
  | str m0 checks =>
      simp only [msgOf] at hm; subst hm
      cases v
      case str s' => exact Or.inl (by simp [setMsg, parse])
      all_goals exact Or.inr ⟨"Expected string", by simp [primaryDefaults],
        by simp [parse, typeFail], by simp [setMsg, parse, typeFail]⟩
  | num m0 checks =>
      simp only [msgOf] at hm; subst hm
      cases v
      case num jn =>
        cases jn with
        | nan => exact Or.inr ⟨"Expected number", by simp [primaryDefaults],
            by simp [parse, numberCore, typeFail], by simp [setMsg, parse, numberCore, typeFail]⟩
        | val q => exact Or.inl (by simp [setMsg, parse, numberCore])
      all_goals exact Or.inr ⟨"Expected number", by simp [primaryDefaults],
        by simp [parse, typeFail], by simp [setMsg, parse, typeFail]⟩
  | bool m0 =>
      simp only [msgOf] at hm; subst hm
      cases v
      case bool b => exact Or.inl (by simp [setMsg, parse])
      all_goals exact Or.inr ⟨"Expected boolean", by simp [primaryDefaults],
        by simp [parse, typeFail], by simp [setMsg, parse, typeFail]⟩
  | coercedStr m0 checks =>
      simp only [msgOf] at hm; subst hm
      cases v
      case str s' => exact Or.inl (by simp [setMsg, parse])
      case num jn => exact Or.inl (by simp [setMsg, parse])
      case bool b => exact Or.inl (by simp [setMsg, parse])
      all_goals exact Or.inr ⟨"Expected string", by simp [primaryDefaults],
        by simp [parse, typeFail], by simp [setMsg, parse, typeFail]⟩
  | coercedNum m0 checks =>
      simp only [msgOf] at hm; subst hm
      cases v
      case str s' =>
        by_cases ht : jsTrim s' = ""
        · exact Or.inr ⟨"Expected number", by simp [primaryDefaults],
            by simp [parse, ht, typeFail], by simp [setMsg, parse, ht, typeFail]⟩
        · cases hjn : jsStringToNumber (jsTrim s') with
          | nan => exact Or.inr ⟨"Expected number", by simp [primaryDefaults],
              by simp [parse, ht, hjn, numberCore, typeFail],
              by simp [setMsg, parse, ht, hjn, numberCore, typeFail]⟩
          | val q => exact Or.inl (by simp [setMsg, parse, ht, hjn, numberCore])
      case num jn =>
        cases jn with
        | nan => exact Or.inr ⟨"Expected number", by simp [primaryDefaults],
            by simp [parse, numberCore, typeFail], by simp [setMsg, parse, numberCore, typeFail]⟩
        | val q => exact Or.inl (by simp [setMsg, parse, numberCore])
      all_goals exact Or.inr ⟨"Expected number", by simp [primaryDefaults],
        by simp [parse, typeFail], by simp [setMsg, parse, typeFail]⟩
  | coercedBool m0 =>
      simp only [msgOf] at hm; subst hm
      cases v
      case str s' =>
        by_cases h1 : jsToLower s' = "true" ∨ jsToLower s' = "1"
        · exact Or.inl (by simp [setMsg, parse, h1])
        · by_cases h2 : jsToLower s' = "false" ∨ jsToLower s' = "0" ∨ jsToLower s' = ""
          · exact Or.inl (by simp [setMsg, parse, h1, h2])
          · exact Or.inr ⟨"Expected boolean", by simp [primaryDefaults],
              by simp [parse, h1, h2, typeFail], by simp [setMsg, parse, h1, h2, typeFail]⟩
      case bool b => exact Or.inl (by simp [setMsg, parse])
      all_goals exact Or.inr ⟨"Expected boolean", by simp [primaryDefaults],
        by simp [parse, typeFail], by simp [setMsg, parse, typeFail]⟩
  | arr m0 checks item =>
      simp only [msgOf] at hm; subst hm
      cases v
      case arr xs => exact Or.inl (by simp [setMsg, parse])
      all_goals exact Or.inr ⟨"Expected array", by simp [primaryDefaults],
        by simp [parse, typeFail], by simp [setMsg, parse, typeFail]⟩
  | obj m0 shape =>
      simp only [msgOf] at hm; subst hm
      cases v
      case obj fields => exact Or.inl (by simp [setMsg, parse])
      all_goals exact Or.inr ⟨"Expected object", by simp [primaryDefaults],
        by simp [parse, typeFail], by simp [setMsg, parse, typeFail]⟩
  | record m0 valueSchema =>
      simp only [msgOf] at hm; subst hm
      cases v
      case obj entries => exact Or.inl (by simp [setMsg, parse])
      all_goals exact Or.inr ⟨"Expected object", by simp [primaryDefaults],
        by simp [parse, typeFail], by simp [setMsg, parse, typeFail]⟩
  | enum m0 values =>
      simp only [msgOf] at hm; subst hm
      cases v
      case str s' =>
        by_cases hc : s' ∈ values
        · exact Or.inl (by simp [setMsg, parse, hc])
        · exact Or.inr ⟨"Expected one of: " ++ String.intercalate ", " values,
            by simp [primaryDefaults],
            by simp [parse, hc, typeFail], by simp [setMsg, parse, hc, typeFail]⟩
      all_goals exact Or.inr ⟨"Expected one of: " ++ String.intercalate ", " values,
        by simp [primaryDefaults],
        by simp [parse, typeFail], by simp [setMsg, parse, typeFail]⟩
  | literal m0 value =>
      simp only [msgOf] at hm; subst hm
      by_cases hc : jsStrictEq v value
      · exact Or.inl (by simp [setMsg, parse, hc])
      · exact Or.inr ⟨"Expected literal " ++ jsonStringifyPrim value,
          by simp [primaryDefaults],
          by simp [parse, hc, typeFail], by simp [setMsg, parse, hc, typeFail]⟩
  | union m0 schemas =>
      simp only [msgOf] at hm; subst hm
      cases hu : parseUnion schemas v p with
      | some r => exact Or.inl (by simp [setMsg, parse, hu])
      | none => exact Or.inr ⟨"Value does not match any type in the union",
          by simp [primaryDefaults],
          by simp [parse, hu, typeFail], by simp [setMsg, parse, hu, typeFail]⟩
  | date m0 checks =>
      simp only [msgOf] at hm; subst hm
      cases v
      case str s' =>
        cases hd : jsDateParse s' with
        | none => exact Or.inr ⟨"Invalid date", by simp [primaryDefaults],
            by simp [parse, hd, typeFail], by simp [setMsg, parse, hd, typeFail]⟩
        | some t => exact Or.inl (by simp [setMsg, parse, hd])
      all_goals exact Or.inr ⟨"Expected date string", by simp [primaryDefaults],
        by simp [parse, typeFail], by simp [setMsg, parse, typeFail]⟩
  | optional m0 inner =>
      simp only [msgOf] at hm; subst hm
      cases v <;> exact Or.inl (by simp [setMsg, parse])
  | nullable m0 inner =>
      simp only [msgOf] at hm; subst hm
      cases v <;> exact Or.inl (by simp [setMsg, parse])
  | transform m0 inner fn =>
      simp only [msgOf] at hm; subst hm
      exact Or.inl (by simp [setMsg, parse])

/-- Witness for C9: `string().message("custom")` on a non-string input fails
with the custom message replacing the default type message. -/
theorem custom_message_replaces_only_primary_witness :
    parse (setMsg (.str none []) "custom") (.bool true) "" =
      .error (.verr (ValidationError.ofIssues [⟨"", "custom"⟩])) := by
  have h := custom_message_replaces_only_primary (.str none []) "custom" (.bool true) "" rfl
  rcases h with h | ⟨d, hd, h1, h2⟩
  · exfalso
    rw [show parse (.str none []) (.bool true) "" =
        .error (.verr (ValidationError.ofIssues [⟨"", "Expected string"⟩])) from by
      simp [parse, typeFail]] at h
    rw [show parse (setMsg (.str none []) "custom") (.bool true) "" =
        .error (.verr (ValidationError.ofIssues [⟨"", "custom"⟩])) from by
      simp [setMsg, parse, typeFail]] at h
    simp [ValidationError.ofIssues] at h
  · exact h2

-- ── Claim C2 ─────────────────────────────────────────────────────────

/-- Counterexample for C2 as stated: `UnionSchema.parse` uses a bare
`catch {}` (source line 455), so a non-`ValidationError` thrown by a
transform member is swallowed, not propagated. The member alone throws the
foreign exception (tag 7), but inside a union the same input yields the
union's generic `ValidationError` instead. -/
theorem union_swallows_foreign_exception :
    parse (.transform none (.num none []) (fun _ => .error 7)) (.num (.val 42)) "" =
      .error (.other 7)
    ∧ parse (.union none [.transform none (.num none []) (fun _ => .error 7),
        .str none []]) (.num (.val 42)) "" =
      .error (.verr (ValidationError.ofIssues
        [⟨"", "Value does not match any type in the union"⟩])) := by
  constructor
  · simp [parse, numberCore, runNumChecks]
  · simp [parse, parseUnion, numberCore, runNumChecks, typeFail]

/-- C2 (amended): any exception that is not a `ValidationError` — in
particular one thrown by a user-supplied transform function — propagates
unchanged out of `parse` through transform wrappers and array/object/record
containers (which re-throw it immediately) and through optional/nullable
wrappers, with one exception: a union's member loop catches *all* exceptions
from a member, silently moving to the next member. -/
theorem foreign_exceptions_propagate (m : Option String) (inner item fs s1 : Sch)
    (rest : List Sch) (shapeRest : List (String × Sch)) (fn : Value → Except Nat Value)
    (v x w val : Value) (xs : List Value) (fields entries : List (String × Value))
    (p k : String) (t : Nat) (ex : Thrown) :
    (parse inner v p = .ok w → fn w = .error t →
      parse (.transform m inner fn) v p = .error (.other t))
    ∧ (parse inner v p = .error (.other t) →
      parse (.transform m inner fn) v p = .error (.other t))
    ∧ (parse item x (extendIdx p 0) = .error (.other t) →
      parse (.arr m [] item) (.arr (x :: xs)) p = .error (.other t))
    ∧ (parse fs (jsGet fields k) (extendKey p k) = .error (.other t) →
      parse (.obj m ((k, fs) :: shapeRest)) (.obj fields) p = .error (.other t))
    ∧ (parse inner val (extendKey p k) = .error (.other t) →
      parse (.record m inner) (.obj ((k, val) :: entries)) p = .error (.other t))
    ∧ (v ≠ .undefinedV → parse inner v p = .error (.other t) →
      parse (.optional m inner) v p = .error (.other t))
    ∧ (v ≠ .null → parse inner v p = .error (.other t) →
      parse (.nullable m inner) v p = .error (.other t))
    ∧ (parse s1 v p = .error ex →
      parse (.union m (s1 :: rest)) v p = parse (.union m rest) v p) := by
  refine ⟨?_, ?_, ?_, ?_, ?_, ?_, ?_, ?_⟩
  · intro h1 h2; simp [parse, h1, h2]
  · intro h1; simp [parse, h1]
  · intro h1; simp [parse, parseItems, runArrChecks, h1]
  · intro h1; simp [parse, parseFields, h1]
  · intro h1; simp [parse, parseRecordEntries, h1]
  · intro hv h1; cases v <;> simp [parse, h1] at hv ⊢
  · intro hv h1; cases v <;> simp [parse, h1] at hv ⊢
  · intro h1; simp [parse, parseUnion, h1]

/-- Witness for C2 (amended): a transform throwing tag 7 outside a union
propagates it unchanged. -/
theorem foreign_exceptions_propagate_witness :
    parse (.transform none (.num none []) (fun _ => .error 7)) (.num (.val 1)) "" =
      .error (.other 7) :=
  (foreign_exceptions_propagate none (.num none []) (.num none []) (.num none [])
    (.num none []) [] [] (fun _ => .error 7) (.num (.val 1)) (.num (.val 1))
    (.num (.val 1)) (.num (.val 1)) [] [] [] "" "" 7 (.other 7)).1
    (by simp [parse, numberCore, runNumChecks]) rfl

-- ── Claim C3 ─────────────────────────────────────────────────────────

/-- Counterexample for C3 as stated: `toJsonSchema` tests the field schema
with `instanceof OptionalSchema` only at the top of the wrapper chain
(source line 398). A field built as `string().optional().nullable()` is a
`NullableSchema` wrapping an `OptionalSchema`, so although its wrapper chain
contains an Optional, the key still appears in `required`. -/
theorem required_ignores_nested_optional :
    hasOptionalWrapper (.nullable none (.optional none (.str none []))) = true
    ∧ requiredOf (toJsonSchema (.obj none
        [("a", .nullable none (.optional none (.str none [])))])) = ["a"] := by
  constructor
  · rfl
  · simp [toJsonSchema, toJsonFields, requiredKeys, isOptionalInstance, requiredOf,
      jsonMember, List.lookup]

theorem json_str_roundtrip (l : List String) :
    l.filterMap
      ((fun x => match x with | Json.str s => some s | _ => none) ∘ Json.str) = l := by
  induction l with
  | nil => simp
  | cons a rest ih => simp [Function.comp, ih]

theorem requiredOf_toJsonSchema_obj (m : Option String) (shape : List (String × Sch)) :
    requiredOf (toJsonSchema (.obj m shape)) = requiredKeys shape := by
  simp only [toJsonSchema]
  by_cases h : (requiredKeys shape).isEmpty
  · simp [h, requiredOf, jsonMember, List.lookup]
    exact List.isEmpty_iff.mp h
  · simp [h, requiredOf, jsonMember, List.lookup]
    exact json_str_roundtrip _

theorem keys_nodup_unique (shape : List (String × Sch))
    (hnd : (shape.map Prod.fst).Nodup) (k : String) (s1 s2 : Sch)
    (h1 : (k, s1) ∈ shape) (h2 : (k, s2) ∈ shape) : s1 = s2 := by
  induction shape with
  | nil => simp at h1
  | cons ks rest ih =>
      simp only [List.map_cons, List.nodup_cons] at hnd
      rcases List.mem_cons.mp h1 with e1 | m1 <;> rcases List.mem_cons.mp h2 with e2 | m2
      · exact congrArg Prod.snd (e1.trans e2.symm)
      · exfalso
        apply hnd.1
        have hk : ks.1 = k := by rw [← e1]
        rw [hk]
        simpa using List.mem_map_of_mem Prod.fst m2
      · exfalso
        apply hnd.1
        have hk : ks.1 = k := by rw [← e2]
        rw [hk]
        simpa using List.mem_map_of_mem Prod.fst m1
      · exact ih hnd.2 m1 m2

/-- C3 (amended): in the document exported for an object schema (with
distinct declared keys), a declared key is excluded from the `required` list
exactly when its field schema is, at the top level of its wrapper chain, an
`OptionalSchema` instance — a nested Optional (e.g. under `nullable()`) does
not exclude it. -/
theorem required_exactly_top_level_optional (m : Option String)
    (shape : List (String × Sch)) (hnd : (shape.map Prod.fst).Nodup)
    (k : String) (s : Sch) (hmem : (k, s) ∈ shape) :
    k ∈ requiredOf (toJsonSchema (.obj m shape)) ↔ ¬ isOptionalInstance s := by
  rw [requiredOf_toJsonSchema_obj]
  constructor
  · intro hk hopt
    simp only [requiredKeys, List.mem_map] at hk
    obtain ⟨ks, hks, hk1⟩ := hk
    obtain ⟨hmem2, hfilt⟩ := List.mem_filter.mp hks
    have hpair : ks = (k, ks.2) := by
      obtain ⟨a, b⟩ := ks
      simp at hk1 ⊢
      exact hk1
    rw [hpair] at hmem2
    have heq := keys_nodup_unique shape hnd k s ks.2 hmem hmem2
    simp only [Bool.not_eq_true', Bool.not_eq_eq_eq_not] at hfilt
    rw [← heq] at hfilt
    simp [hfilt] at hopt
  · intro hopt
    simp only [requiredKeys, List.mem_map]
    exact ⟨(k, s), List.mem_filter.mpr ⟨hmem, by simpa using hopt⟩, rfl⟩

/-- Witness for C3 (amended): in `object({a: string(), b: string().optional()})`,
`a` is required exactly because it is not a top-level Optional. -/
theorem required_exactly_top_level_optional_witness :
    "a" ∈ requiredOf (toJsonSchema (.obj none
        [("a", .str none []), ("b", .optional none (.str none []))]))
      ↔ ¬ isOptionalInstance (.str none []) :=
  required_exactly_top_level_optional none
    [("a", .str none []), ("b", .optional none (.str none []))]
    (by simp) "a" (.str none []) (by simp)

-- ── Claim C4 ─────────────────────────────────────────────────────────

theorem mem_condCons (key : String) (v : Value) (r : List (String × Value))
    (k : String) (w : Value)
    (hm : (k, w) ∈ (match v with | Value.undefinedV => r | _ => (key, v) :: r)) :
    ((k, w) = (key, v) ∧ v ≠ Value.undefinedV) ∨ (k, w) ∈ r := by
  cases v <;> simp at hm ⊢ <;> tauto

theorem parseFields_ok_mem (p : String) (fields : List (String × Value)) :
    ∀ (shape : List (String × Sch)) (issues : List ValidationIssue)
      (res : List (String × Value)),
      parseFields p shape fields = .ok (issues, res) →
      ∀ k w, (k, w) ∈ res → k ∈ shape.map Prod.fst ∧ w ≠ Value.undefinedV := by
  intro shape
  induction shape with
  | nil =>
      intro issues res h k w hm
      simp [parseFields] at h
      rw [h.2] at hm
      simp at hm
  | cons ks rest ih =>
      obtain ⟨key, fs⟩ := ks
      intro issues res h k w hm
      simp only [parseFields] at h
      cases hp : parse fs (jsGet fields key) (extendKey p key) with
      | ok v =>
          rw [hp] at h
          cases hrec : parseFields p rest fields with
          | ok pr =>
              obtain ⟨is, r⟩ := pr
              rw [hrec] at h
              simp only [Except.ok.injEq, Prod.mk.injEq] at h
              rw [← h.2] at hm
              rcases mem_condCons key v r k w hm with ⟨heq, hne⟩ | ht
              · obtain ⟨h1, h2⟩ := Prod.mk.injEq k w key v ▸ heq
                refine ⟨by simp [h1], by rw [h2]; exact hne⟩
              · obtain ⟨hin, hne⟩ := ih is r hrec k w ht
                exact ⟨by simp [hin], hne⟩
          | error e =>
              rw [hrec] at h
              exact absurd h (by simp)
      | error e =>
          rw [hp] at h
          cases e with
          | verr ve =>
              cases hrec : parseFields p rest fields with
              | ok pr =>
                  obtain ⟨is, r⟩ := pr
                  rw [hrec] at h
                  simp only [Except.ok.injEq, Prod.mk.injEq] at h
                  rw [← h.2] at hm
                  obtain ⟨hin, hne⟩ := ih is r hrec k w hm
                  exact ⟨by simp [hin], hne⟩
              | error eb =>
                  rw [hrec] at h
                  exact absurd h (by simp)
          | other t =>
              exact absurd h (by simp)

-- ── Claim C1 ─────────────────────────────────────────────────────────

theorem parseItems_no_other (item : Sch) (p : String) :
    ∀ (xs : List Value) (i : Nat), NoOther (childResultsFrom item p i xs) →
      parseItems item p i xs =
        .ok (collectVErrIssues (childResultsFrom item p i xs),
          okValues (childResultsFrom item p i xs)) := by
  intro xs
  induction xs with
  | nil =>
      intro i _
      simp [parseItems, childResultsFrom, collectVErrIssues, okValues]
  | cons x rest ih =>
      intro i hno
      have hno' : NoOther (childResultsFrom item p (i + 1) rest) := by
        intro t ht
        exact hno t (by simp only [childResultsFrom]; exact List.mem_cons_of_mem _ ht)
      cases hp : parse item x (extendIdx p i) with
      | ok v =>
          simp [parseItems, hp, ih (i + 1) hno', childResultsFrom, collectVErrIssues,
            okValues, Except.toOption]
      | error e =>
          cases e with
          | verr ev =>
              simp [parseItems, hp, ih (i + 1) hno', childResultsFrom, collectVErrIssues,
                okValues, Except.toOption]
          | other t =>
              exact absurd (by simp only [childResultsFrom]; exact hp ▸ List.mem_cons_self _ _)
                (hno t)

theorem parseFields_no_other (p : String) (fields : List (String × Value)) :
    ∀ shape, NoOther (objChildResults shape fields p) →
      parseFields p shape fields =
        .ok (collectVErrIssues (objChildResults shape fields p),
          objOutput shape fields p) := by
  intro shape
  induction shape with
  | nil =>
      intro _
      simp [parseFields, objChildResults, collectVErrIssues, objOutput]
  | cons ks rest ih =>
      obtain ⟨key, fs⟩ := ks
      intro hno
      have hno' : NoOther (objChildResults rest fields p) := by
        intro t ht
        exact hno t (by simp only [objChildResults, List.map_cons]; exact List.mem_cons_of_mem _ ht)
      cases hp : parse fs (jsGet fields key) (extendKey p key) with
      | ok v =>
          simp only [parseFields, hp, ih hno', objChildResults, List.map_cons,
            collectVErrIssues, objOutput, List.filterMap_cons]
          cases v <;> simp [collectVErrIssues]
      | error e =>
          cases e with
          | verr ev =>
              simp [parseFields, hp, ih hno', objChildResults, collectVErrIssues,
                objOutput, List.filterMap_cons]
          | other t =>
              refine absurd ?_ (hno t)
              simp only [objChildResults, List.map_cons]
              exact hp ▸ List.mem_cons_self _ _

theorem parseRecordEntries_no_other (valueSchema : Sch) (p : String) :
    ∀ entries, NoOther (recChildResults valueSchema entries p) →
      parseRecordEntries valueSchema p entries =
        .ok (collectVErrIssues (recChildResults valueSchema entries p),
          recOutput valueSchema entries p) := by
  intro entries
  induction entries with
  | nil =>
      intro _
      simp [parseRecordEntries, recChildResults, collectVErrIssues, recOutput]
  | cons kv rest ih =>
      obtain ⟨key, val⟩ := kv
      intro hno
      have hno' : NoOther (recChildResults valueSchema rest p) := by
        intro t ht
        exact hno t (by simp only [recChildResults, List.map_cons]; exact List.mem_cons_of_mem _ ht)
      cases hp : parse valueSchema val (extendKey p key) with
      | ok v =>
          simp [parseRecordEntries, hp, ih hno', recChildResults, collectVErrIssues,
            recOutput, List.filterMap_cons]
      | error e =>
          cases e with
          | verr ev =>
              simp [parseRecordEntries, hp, ih hno', recChildResults, collectVErrIssues,
                recOutput, List.filterMap_cons]
          | other t =>
              refine absurd ?_ (hno t)
              simp only [recChildResults, List.map_cons]
              exact hp ▸ List.mem_cons_self _ _

/-- C1: every container schema, on any input that passes its own shape and
length checks, attempts every child in visit order (indices for arrays,
declared keys for objects, observed keys for records), accumulating the
issues of each child's `ValidationError` rather than re-raising; it raises a
single `ValidationError` carrying all collected issues in visit order when
at least one issue occurred, and returns the reconstructed container exactly
when zero issues occurred. (The `NoOther` hypotheses say no child throws a
non-`ValidationError` exception, which would abort the loop — see C2.) -/
theorem containers_aggregate (item valueSchema : Sch) (m : Option String)
    (checks : List ArrCheck) (shape : List (String × Sch)) (xs : List Value)
    (fields entries : List (String × Value)) (p : String) :
    (runArrChecks checks xs.length p = .ok () →
      NoOther (childResultsFrom item p 0 xs) →
      parse (.arr m checks item) (.arr xs) p =
        if collectVErrIssues (childResultsFrom item p 0 xs) = [] then
          .ok (.arr (okValues (childResultsFrom item p 0 xs)))
        else .error (.verr (ValidationError.ofIssues
          (collectVErrIssues (childResultsFrom item p 0 xs)))))
    ∧ (NoOther (objChildResults shape fields p) →
      parse (.obj m shape) (.obj fields) p =
        if collectVErrIssues (objChildResults shape fields p) = [] then
          .ok (.obj (objOutput shape fields p))
        else .error (.verr (ValidationError.ofIssues
          (collectVErrIssues (objChildResults shape fields p)))))
    ∧ (NoOther (recChildResults valueSchema entries p) →
      parse (.record m valueSchema) (.obj entries) p =
        if collectVErrIssues (recChildResults valueSchema entries p) = [] then
          .ok (.obj (recOutput valueSchema entries p))
        else .error (.verr (ValidationError.ofIssues
          (collectVErrIssues (recChildResults valueSchema entries p))))) := by
  refine ⟨?_, ?_, ?_⟩
  · intro hchecks hno
    simp only [parse, hchecks, parseItems_no_other item p xs 0 hno]
    by_cases hi : collectVErrIssues (childResultsFrom item p 0 xs) = [] <;>
      simp [hi, List.isEmpty_iff]
  · intro hno
    simp only [parse, parseFields_no_other p fields shape hno]
    by_cases hi : collectVErrIssues (objChildResults shape fields p) = [] <;>
      simp [hi, List.isEmpty_iff]
  · intro hno
    simp only [parse, parseRecordEntries_no_other valueSchema p entries hno]
    by_cases hi : collectVErrIssues (recChildResults valueSchema entries p) = [] <;>
      simp [hi, List.isEmpty_iff]

/-- Witness for C1: `array(number()).parse(["a","b"])` raises exactly two
issues, with paths `"[0]"` and `"[1]"`, in that order. -/
theorem containers_aggregate_witness :
    parse (.arr none [] (.num none [])) (.arr [.str "a", .str "b"]) "" =
      .error (.verr (ValidationError.ofIssues
        [⟨"[0]", "Expected number"⟩, ⟨"[1]", "Expected number"⟩])) := by
  have h := (containers_aggregate (.num none []) (.num none []) none [] []
    [.str "a", .str "b"] [] [] "").1 (by simp [runArrChecks])
    (by
      intro t ht
      simp [childResultsFrom, parse, extendIdx, typeFail] at ht)
  rw [h]
  have hc : collectVErrIssues (childResultsFrom (.num none []) "" 0 [.str "a", .str "b"]) =
      [⟨"[0]", "Expected number"⟩, ⟨"[1]", "Expected number"⟩] := by
    simp [childResultsFrom, parse, extendIdx, typeFail, collectVErrIssues,
      ValidationError.ofIssues]
    decide
  rw [hc]
  simp

/-- C4: on success, an object schema returns a freshly reconstructed object
whose keys all come from the declared shape (unknown input keys are
stripped) and whose stored values are never `undefined` (an absent optional
field is omitted entirely). Mutation-freedom is inherent to the embedding:
the source builds `result` field by field and never writes to the input. -/
theorem object_output_stripped (m : Option String) (shape : List (String × Sch))
    (fields : List (String × Value)) (p : String) (outFields : List (String × Value))
    (h : parse (.obj m shape) (.obj fields) p = .ok (.obj outFields)) :
    ∀ k w, (k, w) ∈ outFields → k ∈ shape.map Prod.fst ∧ w ≠ Value.undefinedV := by
  intro k w hm
  simp only [parse] at h
  cases hpf : parseFields p shape fields with
  | ok pr =>
      obtain ⟨issues, res⟩ := pr
      rw [hpf] at h
      by_cases hi : issues.isEmpty <;> simp [hi] at h
      exact parseFields_ok_mem p fields shape issues res hpf k w (h ▸ hm)
  | error e =>
      rw [hpf] at h
      exact absurd h (by simp)

/-- Witness for C4: `object({name: string(), age: number().optional()})`
parsing `{name:"a", extra:true}` returns `{name:"a"}`; the theorem applied
to its single output entry. -/
theorem object_output_stripped_witness :
    "name" ∈ [("name", Sch.str none []), ("age", Sch.optional none (Sch.num none []))].map
        Prod.fst
    ∧ Value.str "a" ≠ Value.undefinedV := by
  have h : parse (.obj none [("name", Sch.str none []), ("age", Sch.optional none (Sch.num none []))])
      (.obj [("name", Value.str "a"), ("extra", Value.bool true)]) "" =
      .ok (.obj [("name", Value.str "a")]) := by
    simp [parse, parseFields, jsGet, extendKey, List.lookup, runStrChecks]
  exact object_output_stripped none _ _ "" _ h "name" (Value.str "a") (by simp)

end Crumb
